import Mathlib

/-!
Verification of the templating / message-assembly engine described by the
specification of the LangChain-Prompt-Engineering-Toolkit repository.

The repository's two Python files (`src/prompt_utils.py`,
`src/examples/chat_examples.py`) are thin callers into the third-party
`langchain_core` templating library; the template parsing, variable
substitution and message assembly they rely on is not part of the
repository's own sources.  Following the specification, that minimal
engine (TemplateRenderer and ConversationAssembler) is modelled here and
the repository's helper functions are defined on top of it.
-/

namespace LCPrompt

/-- Modelled from the spec: the closed set of message roles
(spec section 3, "role (enum: System | Human | AI)"). -/
inductive Role where
  | System
  | Human
  | AI
deriving DecidableEq, Repr

/-- Modelled from the spec: an immutable message, a `role` together with
its text `content` (spec section 3, "Message"). -/
structure Message where
  role : Role
  content : String
deriving DecidableEq, Repr

/-- Modelled from the spec: a value in a VariableMapping is "either scalar
(text/number, used in substitution) or a sequence of Message" (spec
section 3, "VariableMapping"). -/
inductive Value where
  | str (s : String)
  | num (n : Int)
  | msgs (l : List Message)
deriving DecidableEq, Repr

/-- Modelled from the spec: a mapping from variable name to value
(spec section 3, "VariableMapping"). -/
abbrev VariableMapping := String → Option Value

/-- Modelled from the spec: the error taxonomy of section 7:
`MissingVariable(name)`, `TypeMismatch(name, expected, actual)` and
`MalformedTemplate` (the template argument is elided; the reason is kept). -/
inductive RenderError where
  | missingVariable (name : String)
  | typeMismatch (name : String) (expected : String) (actual : String)
  | malformedTemplate (reason : String)
deriving DecidableEq, Repr

/-- The textual form of a scalar value used during substitution
("non-text values are converted to their canonical text form", spec
section 4.1).  The spec leaves the text form of a message sequence
unspecified; any fixed deterministic form satisfies the properties proved
below. -/
def toText : Value → String
  | .str s => s
  | .num n => toString n
  | .msgs l => toString (l.map Message.content)

/-- A short description of a value's kind, used in `TypeMismatch` errors. -/
def kindOf : Value → String
  | .str _ => "text"
  | .num _ => "number"
  | .msgs _ => "a sequence of Message"

/-- A token produced by scanning a template: either a literal character or
a `\x7bname\x7d` placeholder (spec section 4.1). -/
inductive Tok where
  | lit (c : Char)
  | var (name : String)
deriving DecidableEq, Repr

/-- The state of the template scanner: outside any brace construct
(`norm`), just after an opening brace (`sawOpen`), just after a closing
brace (`sawClose`), or inside a placeholder accumulating the (reversed)
name characters read so far (`name`). -/
inductive ScanMode where
  | norm
  | sawOpen
  | sawClose
  | name (acc : List Char)
deriving DecidableEq, Repr

/-- Modelled from the spec: the template scanner of TemplateRenderer
(spec section 4.1).  It scans the character list for placeholder tokens of
the form `\x7bname\x7d`, treats a doubled brace as an escaped literal
brace, and reports unbalanced braces as `MalformedTemplate`.  It consumes
one character per step, tracking its position with a `ScanMode`. -/
def scanAux (mode : ScanMode) : List Char → Except RenderError (List Tok)
  | [] =>
    match mode with
    | .norm => .ok []
    | .sawOpen => .error (.malformedTemplate "unterminated placeholder")
    | .sawClose => .error (.malformedTemplate "stray closing brace")
    | .name _ => .error (.malformedTemplate "unterminated placeholder")
  | c :: rest =>
    match mode with
    | .norm =>
      if c = '\x7b' then scanAux .sawOpen rest
      else if c = '\x7d' then scanAux .sawClose rest
      else
        match scanAux .norm rest with
        | .error e => .error e
        | .ok ts => .ok (Tok.lit c :: ts)
    | .sawOpen =>
      if c = '\x7b' then
        match scanAux .norm rest with
        | .error e => .error e
        | .ok ts => .ok (Tok.lit '\x7b' :: ts)
      else if c = '\x7d' then
        match scanAux .norm rest with
        | .error e => .error e
        | .ok ts => .ok (Tok.var (String.mk []) :: ts)
      else scanAux (.name [c]) rest
    | .sawClose =>
      if c = '\x7d' then
        match scanAux .norm rest with
        | .error e => .error e
        | .ok ts => .ok (Tok.lit '\x7d' :: ts)
      else .error (.malformedTemplate "stray closing brace")
    | .name acc =>
      if c = '\x7d' then
        match scanAux .norm rest with
        | .error e => .error e
        | .ok ts => .ok (Tok.var (String.mk acc.reverse) :: ts)
      else if c = '\x7b' then .error (.malformedTemplate "brace inside placeholder")
      else scanAux (.name (c :: acc)) rest

/-- Modelled from the spec: token-by-token substitution of TemplateRenderer
(spec section 4.1).  For each placeholder token the name is looked up in
the mapping; if absent the render fails with `MissingVariable(name)`,
otherwise the textual form of the value is substituted. -/
def substTok (m : VariableMapping) : List Tok → Except RenderError (List Char)
  | [] => .ok []
  | .lit c :: ts =>
    match substTok m ts with
    | .error e => .error e
    | .ok cs => .ok (c :: cs)
  | .var n :: ts =>
    match m n with
    | none => .error (.missingVariable n)
    | some v =>
      match substTok m ts with
      | .error e => .error e
      | .ok cs => .ok ((toText v).data ++ cs)

/-- Modelled from the spec: `TemplateRenderer.render(template, variables)`
(spec section 4.1): scan the template for placeholder tokens, then
substitute each token, returning the fully substituted text. -/
def render (template : String) (m : VariableMapping) : Except RenderError String :=
  match scanAux .norm template.data with
  | .error e => .error e
  | .ok toks =>
    match substTok m toks with
    | .error e => .error e
    | .ok cs => .ok (String.mk cs)

/-- `create_simple_prompt` of `src/prompt_utils.py`: builds a
`PromptTemplate` from the template string and formats it with the given
variables — in the modelled engine, exactly `render`. -/
def create_simple_prompt (template_string : String) (vars : VariableMapping) :
    Except RenderError String :=
  render template_string vars

/-- Modelled from the spec: a TurnSpec is either a TextTurn (role plus
template) or a HistoryPlaceholder (variable name plus optional limit)
(spec section 3, "TurnSpec"). -/
inductive TurnSpec where
  | text (role : Role) (template : String)
  | history (variableName : String) (limit : Option Nat)
deriving DecidableEq, Repr

/-- Modelled from the spec: "If `turn.limit` is set and `len(sequence) >
limit`, takes the trailing `limit` elements (drop oldest first); otherwise
takes the entire sequence" (spec section 4.2). -/
def applyLimit : Option Nat → List Message → List Message
  | none, l => l
  | some k, l => if k < l.length then l.drop (l.length - k) else l

/-- Modelled from the spec: resolution of one TurnSpec entry by
ConversationAssembler (spec section 4.2).  A TextTurn renders its template
and wraps the result with its role into a single Message; a
HistoryPlaceholder looks up its variable, failing with `MissingVariable`
if absent and `TypeMismatch` if the value is not a sequence of Message,
and otherwise yields the (possibly limit-truncated) history run. -/
def resolveTurn (m : VariableMapping) : TurnSpec → Except RenderError (List Message)
  | .text role tpl =>
    match render tpl m with
    | .error e => .error e
    | .ok s => .ok [⟨role, s⟩]
  | .history x lim =>
    match m x with
    | none => .error (.missingVariable x)
    | some (.msgs l) => .ok (applyLimit lim l)
    | some v => .error (.typeMismatch x "a sequence of Message" (kindOf v))

/-- Modelled from the spec: `ConversationAssembler.assemble(spec,
variables)` (spec section 4.2): resolve the TurnSpec entries in declared
order, appending each entry's messages to the output; any failure aborts
the whole assembly with no output. -/
def assemble (spec : List TurnSpec) (m : VariableMapping) :
    Except RenderError (List Message) :=
  match spec with
  | [] => .ok []
  | t :: ts =>
    match resolveTurn m t with
    | .error e => .error e
    | .ok ms =>
      match assemble ts m with
      | .error e => .error e
      | .ok rest => .ok (ms ++ rest)

/-- `create_chat_prompt` of `src/prompt_utils.py`: a chat prompt made of a
System turn followed by a Human turn, invoked with a variable mapping. -/
def create_chat_prompt (system_message : String) (human_message : String)
    (vars : VariableMapping) : Except RenderError (List Message) :=
  assemble [.text .System system_message, .text .Human human_message] vars

/-- `create_conversation_with_history` of `src/prompt_utils.py`: a System
turn, a history placeholder bound to the variable `history` (no limit),
and a final Human turn with template `\x7bquestion\x7d`, invoked with the
given history and current question. -/
def create_conversation_with_history (system_message : String)
    (history : List Message) (current_question : String) :
    Except RenderError (List Message) :=
  assemble
    [.text .System system_message, .history "history" none,
     .text .Human "\x7bquestion\x7d"]
    (fun n =>
      if n = "history" then some (.msgs history)
      else if n = "question" then some (.str current_question)
      else none)

/-- A template is placeholder-free when a successful scan of it yields no
placeholder token. -/
def placeholderFree (t : String) : Prop :=
  ∀ toks, scanAux .norm t.data = .ok toks → ∀ x, Tok.var x ∉ toks

end LCPrompt

namespace LCPrompt

theorem mk_data (s : String) : String.mk s.data = s := by
  cases s
  rfl

theorem data_append (s t : String) : (s ++ t).data = s.data ++ t.data := by
  cases s
  cases t
  rfl

theorem mk_append (a b : List Char) : String.mk (a ++ b) = String.mk a ++ String.mk b := rfl

theorem scanAux_norm_open (rest : List Char) :
    scanAux .norm ('\x7b' :: rest) = scanAux .sawOpen rest := by
  simp [scanAux]

theorem scanAux_norm_close (rest : List Char) :
    scanAux .norm ('\x7d' :: rest) = scanAux .sawClose rest := by
  simp [scanAux]

theorem scanAux_norm_lit (c : Char) (rest : List Char) (h1 : c ≠ '\x7b') (h2 : c ≠ '\x7d') :
    scanAux .norm (c :: rest) =
      match scanAux .norm rest with
      | .error e => .error e
      | .ok ts => .ok (Tok.lit c :: ts) := by
  simp [scanAux, h1, h2]

theorem scanAux_sawOpen_open (rest : List Char) :
    scanAux .sawOpen ('\x7b' :: rest) =
      match scanAux .norm rest with
      | .error e => .error e
      | .ok ts => .ok (Tok.lit '\x7b' :: ts) := by
  simp [scanAux]

theorem scanAux_sawOpen_close (rest : List Char) :
    scanAux .sawOpen ('\x7d' :: rest) =
      match scanAux .norm rest with
      | .error e => .error e
      | .ok ts => .ok (Tok.var (String.mk []) :: ts) := by
  simp [scanAux]

theorem scanAux_sawOpen_other (c : Char) (rest : List Char)
    (h1 : c ≠ '\x7b') (h2 : c ≠ '\x7d') :
    scanAux .sawOpen (c :: rest) = scanAux (.name [c]) rest := by
  simp [scanAux, h1, h2]

theorem scanAux_sawClose_close (rest : List Char) :
    scanAux .sawClose ('\x7d' :: rest) =
      match scanAux .norm rest with
      | .error e => .error e
      | .ok ts => .ok (Tok.lit '\x7d' :: ts) := by
  simp [scanAux]

theorem scanAux_sawClose_other (c : Char) (rest : List Char) (h : c ≠ '\x7d') :
    scanAux .sawClose (c :: rest) = .error (.malformedTemplate "stray closing brace") := by
  simp [scanAux, h]

theorem scanAux_name_close (acc rest : List Char) :
    scanAux (.name acc) ('\x7d' :: rest) =
      match scanAux .norm rest with
      | .error e => .error e
      | .ok ts => .ok (Tok.var (String.mk acc.reverse) :: ts) := by
  simp [scanAux]

theorem scanAux_name_open (acc : List Char) (rest : List Char) :
    scanAux (.name acc) ('\x7b' :: rest) =
      .error (.malformedTemplate "brace inside placeholder") := by
  simp [scanAux]

theorem scanAux_name_other (acc : List Char) (c : Char) (rest : List Char)
    (h1 : c ≠ '\x7b') (h2 : c ≠ '\x7d') :
    scanAux (.name acc) (c :: rest) = scanAux (.name (c :: acc)) rest := by
  simp [scanAux, h1, h2]

end LCPrompt

namespace LCPrompt

/-- A completed scan is stable under appending further input: the tokens of
`l1` are emitted unchanged and scanning continues on `l2` from the normal
state. -/
theorem scanAux_append (l1 : List Char) : ∀ (mode : ScanMode) (toks : List Tok),
    scanAux mode l1 = .ok toks → ∀ (l2 : List Char),
    scanAux mode (l1 ++ l2) =
      match scanAux .norm l2 with
      | .error e => .error e
      | .ok ts => .ok (toks ++ ts) := by
  induction l1 with
  | nil =>
    intro mode toks h l2
    cases mode with
    | norm =>
      have htoks : toks = [] := by
        have h2 : (Except.ok [] : Except RenderError (List Tok)) = .ok toks := h
        injection h2 with h3
        exact h3.symm
      subst htoks
      simp only [List.nil_append]
      cases hres : scanAux .norm l2 <;> simp
    | sawOpen => simp [scanAux] at h
    | sawClose => simp [scanAux] at h
    | name acc => simp [scanAux] at h
  | cons c rest ih =>
    intro mode toks h l2
    simp only [List.cons_append]
    cases mode with
    | norm =>
      by_cases hb : c = '\x7b'
      · subst hb
        rw [scanAux_norm_open] at h
        rw [scanAux_norm_open]
        exact ih .sawOpen toks h l2
      · by_cases hd : c = '\x7d'
        · subst hd
          rw [scanAux_norm_close] at h
          rw [scanAux_norm_close]
          exact ih .sawClose toks h l2
        · rw [scanAux_norm_lit c rest hb hd] at h
          rw [scanAux_norm_lit c (rest ++ l2) hb hd]
          cases hres : scanAux .norm rest with
          | error e => rw [hres] at h; exact Except.noConfusion h
          | ok ts =>
            rw [hres] at h
            have htoks : toks = Tok.lit c :: ts := by injection h with h3; exact h3.symm
            subst htoks
            rw [ih .norm ts hres l2]
            cases scanAux .norm l2 <;> simp
    | sawOpen =>
      by_cases hb : c = '\x7b'
      · subst hb
        rw [scanAux_sawOpen_open] at h
        rw [scanAux_sawOpen_open]
        cases hres : scanAux .norm rest with
        | error e => rw [hres] at h; exact Except.noConfusion h
        | ok ts =>
          rw [hres] at h
          have htoks : toks = Tok.lit '\x7b' :: ts := by injection h with h3; exact h3.symm
          subst htoks
          rw [ih .norm ts hres l2]
          cases scanAux .norm l2 <;> simp
      · by_cases hd : c = '\x7d'
        · subst hd
          rw [scanAux_sawOpen_close] at h
          rw [scanAux_sawOpen_close]
          cases hres : scanAux .norm rest with
          | error e => rw [hres] at h; exact Except.noConfusion h
          | ok ts =>
            rw [hres] at h
            have htoks : toks = Tok.var (String.mk []) :: ts := by
              injection h with h3; exact h3.symm
            subst htoks
            rw [ih .norm ts hres l2]
            cases scanAux .norm l2 <;> simp
        · rw [scanAux_sawOpen_other c rest hb hd] at h
          rw [scanAux_sawOpen_other c (rest ++ l2) hb hd]
          exact ih (.name [c]) toks h l2
    | sawClose =>
      by_cases hd : c = '\x7d'
      · subst hd
        rw [scanAux_sawClose_close] at h
        rw [scanAux_sawClose_close]
        cases hres : scanAux .norm rest with
        | error e => rw [hres] at h; exact Except.noConfusion h
        | ok ts =>
          rw [hres] at h
          have htoks : toks = Tok.lit '\x7d' :: ts := by injection h with h3; exact h3.symm
          subst htoks
          rw [ih .norm ts hres l2]
          cases scanAux .norm l2 <;> simp
      · rw [scanAux_sawClose_other c rest hd] at h
        exact Except.noConfusion h
    | name acc =>
      by_cases hd : c = '\x7d'
      · subst hd
        rw [scanAux_name_close] at h
        rw [scanAux_name_close]
        cases hres : scanAux .norm rest with
        | error e => rw [hres] at h; exact Except.noConfusion h
        | ok ts =>
          rw [hres] at h
          have htoks : toks = Tok.var (String.mk acc.reverse) :: ts := by
            injection h with h3; exact h3.symm
          subst htoks
          rw [ih .norm ts hres l2]
          cases scanAux .norm l2 <;> simp
      · by_cases hb : c = '\x7b'
        · subst hb
          rw [scanAux_name_open] at h
          exact Except.noConfusion h
        · rw [scanAux_name_other acc c rest hb hd] at h
          rw [scanAux_name_other acc c (rest ++ l2) hb hd]
          exact ih (.name (c :: acc)) toks h l2

end LCPrompt

namespace LCPrompt

/-- Scanning brace-free text yields exactly its characters as literal
tokens. -/
theorem scanAux_braceFree (l : List Char)
    (h : ∀ c ∈ l, c ≠ '\x7b' ∧ c ≠ '\x7d') :
    scanAux .norm l = .ok (l.map Tok.lit) := by
  induction l with
  | nil => rfl
  | cons c rest ih =>
    obtain ⟨h1, h2⟩ := h c (by simp)
    rw [scanAux_norm_lit c rest h1 h2, ih (fun d hd => h d (by simp [hd]))]
    rfl

/-- Scanning a brace-free name continued by a closing brace emits one
placeholder token carrying the accumulated name. -/
theorem scanAux_name_run (x : List Char) (hx : ∀ c ∈ x, c ≠ '\x7b' ∧ c ≠ '\x7d') :
    ∀ (acc rest : List Char),
    scanAux (.name acc) (x ++ '\x7d' :: rest) =
      match scanAux .norm rest with
      | .error e => .error e
      | .ok ts => .ok (Tok.var (String.mk (acc.reverse ++ x)) :: ts) := by
  induction x with
  | nil =>
    intro acc rest
    simp only [List.nil_append]
    rw [scanAux_name_close]
    simp
  | cons c xs ih =>
    intro acc rest
    obtain ⟨h1, h2⟩ := hx c (by simp)
    simp only [List.cons_append]
    rw [scanAux_name_other acc c _ h1 h2]
    rw [ih (fun d hd => hx d (by simp [hd])) (c :: acc) rest]
    simp

/-- Scanning `\x7b` + name + `\x7d` + rest emits one placeholder token for
the (brace-free) name and continues with rest. -/
theorem scanAux_var (x : List Char) (hx : ∀ c ∈ x, c ≠ '\x7b' ∧ c ≠ '\x7d')
    (rest : List Char) :
    scanAux .norm ('\x7b' :: (x ++ '\x7d' :: rest)) =
      match scanAux .norm rest with
      | .error e => .error e
      | .ok ts => .ok (Tok.var (String.mk x) :: ts) := by
  rw [scanAux_norm_open]
  cases x with
  | nil =>
    simp only [List.nil_append]
    rw [scanAux_sawOpen_close]
  | cons c xs =>
    obtain ⟨h1, h2⟩ := hx c (by simp)
    simp only [List.cons_append]
    rw [scanAux_sawOpen_other c _ h1 h2]
    rw [scanAux_name_run xs (fun d hd => hx d (by simp [hd])) [c] rest]
    simp

/-- Substitution distributes over token-list concatenation. -/
theorem substTok_append (m : VariableMapping) (ts1 : List Tok) :
    ∀ (cs1 : List Char), substTok m ts1 = .ok cs1 → ∀ (ts2 : List Tok),
    substTok m (ts1 ++ ts2) =
      match substTok m ts2 with
      | .error e => .error e
      | .ok cs2 => .ok (cs1 ++ cs2) := by
  induction ts1 with
  | nil =>
    intro cs1 h ts2
    have hcs : cs1 = [] := by
      have h2 : (Except.ok [] : Except RenderError (List Char)) = .ok cs1 := h
      injection h2 with h3
      exact h3.symm
    subst hcs
    simp only [List.nil_append]
    cases substTok m ts2 <;> simp
  | cons t ts ih =>
    intro cs1 h ts2
    cases t with
    | lit c =>
      simp only [substTok] at h
      cases hres : substTok m ts with
      | error e => rw [hres] at h; exact Except.noConfusion h
      | ok cs =>
        rw [hres] at h
        have hcs : cs1 = c :: cs := by injection h with h3; exact h3.symm
        subst hcs
        simp only [List.cons_append, substTok, List.append_eq]
        rw [ih cs hres ts2]
        cases substTok m ts2 <;> simp
    | var n =>
      simp only [substTok] at h
      cases hmn : m n with
      | none => rw [hmn] at h; exact Except.noConfusion h
      | some v =>
        rw [hmn] at h
        cases hres : substTok m ts with
        | error e => rw [hres] at h; exact Except.noConfusion h
        | ok cs =>
          rw [hres] at h
          have hcs : cs1 = (toText v).data ++ cs := by injection h with h3; exact h3.symm
          subst hcs
          simp only [List.cons_append, substTok, List.append_eq]
          rw [hmn, ih cs hres ts2]
          cases substTok m ts2 <;> simp

/-- Substituting a list of literal tokens returns exactly their
characters. -/
theorem substTok_mapLit (m : VariableMapping) (l : List Char) :
    substTok m (l.map Tok.lit) = .ok l := by
  induction l with
  | nil => rfl
  | cons c rest ih =>
    simp only [List.map_cons, substTok]
    rw [ih]

/-- If some placeholder token's name is unmapped, substitution fails with a
`MissingVariable` error naming an unmapped placeholder occurring in the
tokens; if the unmapped name is unique, it names exactly that one. -/
theorem substTok_missing (m : VariableMapping) (toks : List Tok) :
    ∀ (x : String), Tok.var x ∈ toks → m x = none →
    ∃ y, m y = none ∧ Tok.var y ∈ toks ∧
      substTok m toks = .error (.missingVariable y) := by
  induction toks with
  | nil => intro x hx; simp at hx
  | cons t ts ih =>
    intro x hx hmx
    cases t with
    | lit c =>
      have hx2 : Tok.var x ∈ ts := by
        rcases List.mem_cons.mp hx with h | h
        · exact absurd h (by simp)
        · exact h
      obtain ⟨y, hy1, hy2, hy3⟩ := ih x hx2 hmx
      refine ⟨y, hy1, by simp [hy2], ?_⟩
      simp only [substTok]
      rw [hy3]
    | var n =>
      cases hmn : m n with
      | none =>
        refine ⟨n, hmn, by simp, ?_⟩
        simp only [substTok]
        rw [hmn]
      | some v =>
        have hx2 : Tok.var x ∈ ts := by
          rcases List.mem_cons.mp hx with h | h
        -- if x were n it would be mapped
          · have : x = n := by injection h
            subst this
            rw [hmx] at hmn
            exact Option.noConfusion hmn
          · exact h
        obtain ⟨y, hy1, hy2, hy3⟩ := ih x hx2 hmx
        refine ⟨y, hy1, by simp [hy2], ?_⟩
        simp only [substTok]
        rw [hmn, hy3]

end LCPrompt

namespace LCPrompt

theorem str_append_assoc (a b c : String) : (a ++ b) ++ c = a ++ (b ++ c) := by
  cases a
  cases b
  cases c
  simp only [← mk_append, List.append_assoc]

/-- Destructure a successful render into its scan and substitution parts. -/
theorem render_ok_parts (t : String) (m : VariableMapping) (s : String)
    (h : render t m = .ok s) :
    ∃ toks cs, scanAux .norm t.data = .ok toks ∧ substTok m toks = .ok cs ∧
      String.mk cs = s := by
  unfold render at h
  cases h1 : scanAux .norm t.data with
  | error e =>
    rw [h1] at h
    exact Except.noConfusion h
  | ok toks =>
    simp only [h1] at h
    cases h2 : substTok m toks with
    | error e =>
      rw [h2] at h
      exact Except.noConfusion h
    | ok cs =>
      rw [h2] at h
      refine ⟨toks, cs, rfl, h2, ?_⟩
      injection h

/-- Gluing lemma: rendering `t1 ++ mid ++ t2` when `t1` and `t2` render on
their own and `mid` scans to a fixed token run that substitutes to a fixed
output. -/
theorem render_glue (t1 mid t2 : String) (m : VariableMapping) (s1 s2 : String)
    (midToks : List Tok) (midOut : List Char)
    (h1 : render t1 m = .ok s1) (h2 : render t2 m = .ok s2)
    (hscan : ∀ rest, scanAux .norm (mid.data ++ rest) =
      match scanAux .norm rest with
      | .error e => .error e
      | .ok ts => .ok (midToks ++ ts))
    (hsub : substTok m midToks = .ok midOut) :
    render (t1 ++ mid ++ t2) m = .ok (s1 ++ String.mk midOut ++ s2) := by
  obtain ⟨toks1, cs1, hs1, hb1, hmk1⟩ := render_ok_parts t1 m s1 h1
  obtain ⟨toks2, cs2, hs2, hb2, hmk2⟩ := render_ok_parts t2 m s2 h2
  have hdata : (t1 ++ mid ++ t2).data = t1.data ++ (mid.data ++ t2.data) := by
    rw [data_append, data_append, List.append_assoc]
  have e1 : scanAux .norm (t1 ++ mid ++ t2).data =
      .ok (toks1 ++ (midToks ++ toks2)) := by
    rw [hdata, scanAux_append t1.data .norm toks1 hs1, hscan t2.data, hs2]
  have e2 : substTok m (toks1 ++ (midToks ++ toks2)) =
      .ok (cs1 ++ (midOut ++ cs2)) := by
    rw [substTok_append m toks1 cs1 hb1, substTok_append m midToks midOut hsub, hb2]
  unfold render
  rw [e1]
  simp only [e2]
  rw [mk_append, mk_append, hmk1, hmk2, ← str_append_assoc]

/-- A text turn that resolves successfully yields exactly one message with
its role and its rendered template. -/
theorem resolveTurn_text_shape (m : VariableMapping) (role : Role) (tpl : String)
    (r : List Message) (h : resolveTurn m (.text role tpl) = .ok r) :
    ∃ s, render tpl m = .ok s ∧ r = [⟨role, s⟩] := by
  simp only [resolveTurn] at h
  cases hr : render tpl m with
  | error e =>
    rw [hr] at h
    exact Except.noConfusion h
  | ok s =>
    rw [hr] at h
    refine ⟨s, rfl, ?_⟩
    injection h with h3
    exact h3.symm

/-- A successful assembly is the concatenation of one message run per turn,
each run being the turn's own resolution. -/
theorem assemble_runs (spec : List TurnSpec) (m : VariableMapping) :
    ∀ out, assemble spec m = .ok out →
    ∃ runs : List (List Message), out = runs.flatten ∧
      List.Forall₂ (fun t r => resolveTurn m t = .ok r) spec runs := by
  induction spec with
  | nil =>
    intro out h
    have hout : out = [] := by
      have h2 : (Except.ok [] : Except RenderError (List Message)) = .ok out := h
      injection h2 with h3
      exact h3.symm
    subst hout
    exact ⟨[], by simp, List.Forall₂.nil⟩
  | cons t ts ih =>
    intro out h
    simp only [assemble] at h
    cases hr : resolveTurn m t with
    | error e =>
    rw [hr] at h
    exact Except.noConfusion h
    | ok ms =>
      simp only [hr] at h
      cases ha : assemble ts m with
      | error e =>
        rw [ha] at h
        exact Except.noConfusion h
      | ok rest =>
        rw [ha] at h
        have hout : out = ms ++ rest := by
          injection h with h3
          exact h3.symm
        subst hout
        obtain ⟨runs, hjoin, hfa⟩ := ih rest ha
        refine ⟨ms :: runs, ?_, List.Forall₂.cons hr hfa⟩
        rw [hjoin]
        simp

/-- Every turn of a successfully assembled spec resolves successfully. -/
theorem assemble_ok_of_mem (spec : List TurnSpec) (m : VariableMapping) :
    ∀ out, assemble spec m = .ok out → ∀ t ∈ spec, ∃ ms, resolveTurn m t = .ok ms := by
  induction spec with
  | nil => intro out h t ht; simp at ht
  | cons t0 ts ih =>
    intro out h t ht
    simp only [assemble] at h
    cases hr : resolveTurn m t0 with
    | error e =>
    rw [hr] at h
    exact Except.noConfusion h
    | ok ms =>
      simp only [hr] at h
      cases ha : assemble ts m with
      | error e =>
        rw [ha] at h
        exact Except.noConfusion h
      | ok rest =>
        rcases List.mem_cons.mp ht with h1 | h1
        · subst h1; exact ⟨ms, hr⟩
        · exact ih rest ha t h1

end LCPrompt

namespace LCPrompt

/-- Claim C1: for the conversation spec consisting of a System turn
"You are a helpful AI assistant." followed by a Human turn
"Tell me a joke about {topic}.", assembling with the variable mapping
sending topic to "programmers" returns exactly the two messages
System "You are a helpful AI assistant." and
Human "Tell me a joke about programmers.": the topic placeholder inside
the Human turn's text is substituted with the variable's value. -/
theorem chat_prompt_single_turn_example :
    create_chat_prompt "You are a helpful AI assistant."
      "Tell me a joke about \x7btopic\x7d."
      (fun n => if n = "topic" then some (.str "programmers") else none) =
    .ok [⟨.System, "You are a helpful AI assistant."⟩,
         ⟨.Human, "Tell me a joke about programmers."⟩] := rfl

/-- Claim C2: for every template containing the placeholder `\x7bx\x7d`
(as a scanned placeholder token, with a brace-free name, in a position
where the surrounding parts render) and every mapping sending x to a value
v, render (`create_simple_prompt`) returns the template text with the
textual form of v in place of the placeholder. -/
theorem render_substitutes_variable (t1 t2 x : String) (m : VariableMapping)
    (v : Value) (s1 s2 : String)
    (hx : ∀ c ∈ x.data, c ≠ '\x7b' ∧ c ≠ '\x7d')
    (h1 : render t1 m = .ok s1) (h2 : render t2 m = .ok s2)
    (hv : m x = some v) :
    create_simple_prompt (t1 ++ ("\x7b" ++ x ++ "\x7d") ++ t2) m =
      .ok (s1 ++ toText v ++ s2) := by
  have hscan : ∀ rest, scanAux .norm (("\x7b" ++ x ++ "\x7d").data ++ rest) =
      match scanAux .norm rest with
      | .error e => .error e
      | .ok ts => .ok ([Tok.var x] ++ ts) := by
    intro rest
    have hd : ("\x7b" ++ x ++ "\x7d").data ++ rest =
        '\x7b' :: (x.data ++ '\x7d' :: rest) := by
      simp only [data_append, List.append_assoc]
      rfl
    rw [hd, scanAux_var x.data hx rest, mk_data]
    cases scanAux .norm rest <;> rfl
  have hsub : substTok m [Tok.var x] = .ok (toText v).data := by
    simp [substTok, hv]
  have hg := render_glue t1 ("\x7b" ++ x ++ "\x7d") t2 m s1 s2
    [Tok.var x] (toText v).data h1 h2 hscan hsub
  rw [mk_data] at hg
  exact hg

theorem render_substitutes_variable_witness :
    ((fun n => if n = "name" then some (Value.num 42) else none) :
        VariableMapping) "name" = some (Value.num 42) ∧
    create_simple_prompt ("Hi " ++ ("\x7b" ++ "name" ++ "\x7d") ++ "!")
      (fun n => if n = "name" then some (Value.num 42) else none) =
      .ok ("Hi " ++ toText (Value.num 42) ++ "!") :=
  ⟨rfl, render_substitutes_variable "Hi " "!" "name"
    (fun n => if n = "name" then some (Value.num 42) else none)
    (Value.num 42) "Hi " "!" (by decide) rfl rfl rfl⟩

/-- Claim C3: if a scanned template references a placeholder name absent
from the mapping, render (`create_simple_prompt`) fails with a
MissingVariable error naming an absent placeholder — and exactly that
placeholder when it is the only absent one — producing no output. -/
theorem render_missing_variable_fails (t : String) (m : VariableMapping)
    (toks : List Tok) (x : String)
    (hscan : scanAux .norm t.data = .ok toks)
    (hmem : Tok.var x ∈ toks) (habs : m x = none) :
    (∃ y, m y = none ∧ Tok.var y ∈ toks ∧
        create_simple_prompt t m = .error (.missingVariable y)) ∧
    ((∀ y, Tok.var y ∈ toks → m y = none → y = x) →
        create_simple_prompt t m = .error (.missingVariable x)) := by
  obtain ⟨y, hy1, hy2, hy3⟩ := substTok_missing m toks x hmem habs
  have hrender : create_simple_prompt t m = .error (.missingVariable y) := by
    unfold create_simple_prompt render
    rw [hscan]
    simp [hy3]
  refine ⟨⟨y, hy1, hy2, hrender⟩, fun huniq => ?_⟩
  rw [huniq y hy2 hy1] at hrender
  exact hrender

theorem render_missing_variable_fails_witness :
    create_simple_prompt "Hi \x7bcompany\x7d" (fun _ => none) =
      .error (.missingVariable "company") := by
  have h := render_missing_variable_fails "Hi \x7bcompany\x7d" (fun _ => none)
    [Tok.lit 'H', Tok.lit 'i', Tok.lit ' ', Tok.var "company"] "company"
    rfl (by simp) rfl
  refine h.2 ?_
  intro y hy hn
  simp at hy
  exact hy

/-- Claim C4: for a history turn with limit k and a history of length n,
when n > k the turn resolves to exactly the last k history messages (a
length-k suffix, oldest dropped first), and when n ≤ k it resolves to the
whole history. -/
theorem history_limit_trailing (x : String) (k : Nat) (m : VariableMapping)
    (hist : List Message) (hm : m x = some (.msgs hist)) :
    (k < hist.length →
      resolveTurn m (.history x (some k)) = .ok (hist.drop (hist.length - k)) ∧
      (hist.drop (hist.length - k)).length = k ∧
      hist.drop (hist.length - k) <:+ hist) ∧
    (hist.length ≤ k → resolveTurn m (.history x (some k)) = .ok hist) := by
  have hres : resolveTurn m (.history x (some k)) = .ok (applyLimit (some k) hist) := by
    simp [resolveTurn, hm]
  constructor
  · intro hk
    refine ⟨?_, ?_, List.drop_suffix _ _⟩
    · rw [hres]
      simp [applyLimit, hk]
    · rw [List.length_drop]
      omega
  · intro hk
    rw [hres]
    have hnk : ¬ k < hist.length := by omega
    simp [applyLimit, hnk]

theorem history_limit_trailing_witness :
    ((fun n => if n = "history" then
        some (Value.msgs [⟨.Human, "Q1"⟩, ⟨.AI, "A1"⟩, ⟨.Human, "Q2"⟩, ⟨.AI, "A2"⟩])
      else none) : VariableMapping) "history" =
      some (Value.msgs [⟨.Human, "Q1"⟩, ⟨.AI, "A1"⟩, ⟨.Human, "Q2"⟩, ⟨.AI, "A2"⟩]) ∧
    resolveTurn
      (fun n => if n = "history" then
        some (Value.msgs [⟨.Human, "Q1"⟩, ⟨.AI, "A1"⟩, ⟨.Human, "Q2"⟩, ⟨.AI, "A2"⟩])
      else none)
      (.history "history" (some 2)) = .ok [⟨.Human, "Q2"⟩, ⟨.AI, "A2"⟩] := by
  refine ⟨rfl, ?_⟩
  have h := (history_limit_trailing "history" 2
    (fun n => if n = "history" then
        some (Value.msgs [⟨.Human, "Q1"⟩, ⟨.AI, "A1"⟩, ⟨.Human, "Q2"⟩, ⟨.AI, "A2"⟩])
      else none)
    [⟨.Human, "Q1"⟩, ⟨.AI, "A1"⟩, ⟨.Human, "Q2"⟩, ⟨.AI, "A2"⟩] rfl).1 (by decide)
  exact h.1

/-- Claim C5: a successful assembly is the in-order concatenation of one
contiguous message run per TurnSpec entry — each text turn contributing
exactly one message with its declared role at its declared relative
position, and a history turn contributing its messages as one contiguous
run at its position. -/
theorem assemble_preserves_order (spec : List TurnSpec) (m : VariableMapping)
    (out : List Message) (h : assemble spec m = .ok out) :
    ∃ runs : List (List Message), out = runs.flatten ∧
      List.Forall₂ (fun t r => resolveTurn m t = .ok r ∧
        ∀ role tpl, t = TurnSpec.text role tpl → ∃ s, r = [⟨role, s⟩]) spec runs := by
  obtain ⟨runs, hjoin, hfa⟩ := assemble_runs spec m out h
  refine ⟨runs, hjoin, List.Forall₂.imp ?_ hfa⟩
  intro t r hres
  refine ⟨hres, ?_⟩
  intro role tpl ht
  subst ht
  obtain ⟨s, hs1, hs2⟩ := resolveTurn_text_shape m role tpl r hres
  exact ⟨s, hs2⟩

theorem assemble_preserves_order_witness :
    ∃ runs : List (List Message),
      ([⟨.System, "a"⟩, ⟨.Human, "q"⟩, ⟨.Human, "b"⟩] : List Message) = runs.flatten ∧
      List.Forall₂ (fun t r =>
        resolveTurn (fun n => if n = "h" then some (.msgs [⟨.Human, "q"⟩]) else none) t
          = .ok r ∧
        ∀ role tpl, t = TurnSpec.text role tpl → ∃ s, r = [⟨role, s⟩])
        [TurnSpec.text .System "a", TurnSpec.history "h" none,
         TurnSpec.text .Human "b"] runs :=
  assemble_preserves_order
    [TurnSpec.text .System "a", TurnSpec.history "h" none, TurnSpec.text .Human "b"]
    (fun n => if n = "h" then some (.msgs [⟨.Human, "q"⟩]) else none)
    [⟨.System, "a"⟩, ⟨.Human, "q"⟩, ⟨.Human, "b"⟩] rfl

/-- Claim C6: if a spec contains a history placeholder whose variable is
mapped to a value that is not a sequence of Message, that placeholder
resolves to a TypeMismatch error and the whole assemble produces no
output. -/
theorem history_type_mismatch (spec : List TurnSpec) (m : VariableMapping)
    (x : String) (lim : Option Nat) (v : Value)
    (hmem : TurnSpec.history x lim ∈ spec)
    (hv : m x = some v) (hnot : ∀ l, v ≠ Value.msgs l) :
    resolveTurn m (.history x lim) =
      .error (.typeMismatch x "a sequence of Message" (kindOf v)) ∧
    ∀ out, assemble spec m ≠ .ok out := by
  have hres : resolveTurn m (.history x lim) =
      .error (.typeMismatch x "a sequence of Message" (kindOf v)) := by
    cases v with
    | str s => simp [resolveTurn, hv, kindOf]
    | num n => simp [resolveTurn, hv, kindOf]
    | msgs l => exact absurd rfl (hnot l)
  refine ⟨hres, ?_⟩
  intro out hout
  obtain ⟨ms, hms⟩ := assemble_ok_of_mem spec m out hout _ hmem
  rw [hres] at hms
  exact Except.noConfusion hms

theorem history_type_mismatch_witness :
    resolveTurn (fun n => if n = "h" then some (Value.str "oops") else none)
      (.history "h" none) =
      .error (.typeMismatch "h" "a sequence of Message" (kindOf (Value.str "oops"))) ∧
    ∀ out, assemble [TurnSpec.history "h" none]
      (fun n => if n = "h" then some (Value.str "oops") else none) ≠ .ok out :=
  history_type_mismatch [TurnSpec.history "h" none]
    (fun n => if n = "h" then some (Value.str "oops") else none)
    "h" none (Value.str "oops") (by simp) rfl (fun l h => Value.noConfusion h)

/-- Claim C7 (counterexample): the template consisting of a doubled opening
brace contains no placeholder, yet render with the empty mapping returns a
single brace, not the template unchanged — so the claim as stated fails. -/
theorem placeholder_free_not_identity :
    placeholderFree "\x7b\x7b" ∧
    create_simple_prompt "\x7b\x7b" (fun _ => none) = .ok "\x7b" ∧
    ("\x7b" : String) ≠ "\x7b\x7b" := by
  refine ⟨?_, rfl, by decide⟩
  intro toks htoks x
  have h0 : scanAux .norm ("\x7b\x7b").data = .ok [Tok.lit '\x7b'] := rfl
  rw [h0] at htoks
  injection htoks with h1
  subst h1
  simp

/-- Claim C7 (amended): for every template string containing no brace
characters at all (hence no placeholders and no escaped braces), render
with any mapping — in particular the empty one — returns the template
unchanged. -/
theorem brace_free_render_identity (t : String) (m : VariableMapping)
    (h : ∀ c ∈ t.data, c ≠ '\x7b' ∧ c ≠ '\x7d') :
    create_simple_prompt t m = .ok t := by
  unfold create_simple_prompt render
  rw [scanAux_braceFree t.data h]
  simp only [substTok_mapLit]

theorem brace_free_render_identity_witness :
    (∀ c ∈ ("hello world" : String).data, c ≠ '\x7b' ∧ c ≠ '\x7d') ∧
    create_simple_prompt "hello world" (fun _ => none) = .ok "hello world" :=
  ⟨by decide, brace_free_render_identity "hello world" (fun _ => none) (by decide)⟩

/-- Claim C8: a doubled opening or closing brace in a template renders as
the corresponding literal single brace, in any context whose surrounding
parts render. -/
theorem doubled_brace_literal (t1 t2 : String) (m : VariableMapping)
    (s1 s2 : String)
    (h1 : render t1 m = .ok s1) (h2 : render t2 m = .ok s2) :
    render (t1 ++ "\x7b\x7b" ++ t2) m = .ok (s1 ++ "\x7b" ++ s2) ∧
    render (t1 ++ "\x7d\x7d" ++ t2) m = .ok (s1 ++ "\x7d" ++ s2) := by
  constructor
  · have hscan : ∀ rest, scanAux .norm (("\x7b\x7b" : String).data ++ rest) =
        match scanAux .norm rest with
        | .error e => .error e
        | .ok ts => .ok ([Tok.lit '\x7b'] ++ ts) := by
      intro rest
      have hd : ("\x7b\x7b" : String).data ++ rest = '\x7b' :: '\x7b' :: rest := rfl
      rw [hd, scanAux_norm_open, scanAux_sawOpen_open]
      cases scanAux .norm rest <;> simp
    have hsub : substTok m [Tok.lit '\x7b'] = .ok ['\x7b'] := rfl
    exact render_glue t1 "\x7b\x7b" t2 m s1 s2 [Tok.lit '\x7b'] ['\x7b'] h1 h2 hscan hsub
  · have hscan : ∀ rest, scanAux .norm (("\x7d\x7d" : String).data ++ rest) =
        match scanAux .norm rest with
        | .error e => .error e
        | .ok ts => .ok ([Tok.lit '\x7d'] ++ ts) := by
      intro rest
      have hd : ("\x7d\x7d" : String).data ++ rest = '\x7d' :: '\x7d' :: rest := rfl
      rw [hd, scanAux_norm_close, scanAux_sawClose_close]
      cases scanAux .norm rest <;> simp
    have hsub : substTok m [Tok.lit '\x7d'] = .ok ['\x7d'] := rfl
    exact render_glue t1 "\x7d\x7d" t2 m s1 s2 [Tok.lit '\x7d'] ['\x7d'] h1 h2 hscan hsub

theorem doubled_brace_literal_witness :
    render ("a" ++ "\x7b\x7b" ++ "b") (fun _ => none) = .ok ("a" ++ "\x7b" ++ "b") ∧
    render ("a" ++ "\x7d\x7d" ++ "b") (fun _ => none) = .ok ("a" ++ "\x7d" ++ "b") :=
  doubled_brace_literal "a" "b" (fun _ => none) "a" "b" rfl rfl

/-- Claim C9: render and assemble are deterministic: two calls with
identical inputs yield structurally identical output — equal messages,
hence equal roles, contents and order — with no hidden state. -/
theorem assemble_render_deterministic (spec : List TurnSpec) (m : VariableMapping)
    (t : String) (out1 out2 : List Message) (s1 s2 : String)
    (h1 : assemble spec m = .ok out1) (h2 : assemble spec m = .ok out2)
    (h3 : render t m = .ok s1) (h4 : render t m = .ok s2) :
    (out1 = out2 ∧ out1.map Message.role = out2.map Message.role ∧
      out1.map Message.content = out2.map Message.content) ∧ s1 = s2 := by
  rw [h1] at h2
  injection h2 with he
  rw [h3] at h4
  injection h4 with he2
  subst he
  subst he2
  exact ⟨⟨rfl, rfl, rfl⟩, rfl⟩

theorem assemble_render_deterministic_witness :
    (([⟨.System, "hi"⟩] : List Message) = [⟨.System, "hi"⟩] ∧
      List.map Message.role [⟨.System, "hi"⟩] = List.map Message.role [⟨.System, "hi"⟩] ∧
      List.map Message.content [⟨.System, "hi"⟩] =
        List.map Message.content [⟨.System, "hi"⟩]) ∧
    ("ok" : String) = "ok" :=
  assemble_render_deterministic [TurnSpec.text .System "hi"] (fun _ => none) "ok"
    [⟨.System, "hi"⟩] [⟨.System, "hi"⟩] "ok" "ok" rfl rfl rfl rfl

/-- Claim C10 (counterexample): in the modelled engine the final Human turn
of create_conversation_with_history is the template `\x7bquestion\x7d`
bound to current_question, so two calls differing only in
current_question yield different outputs and the last message is not the
literal placeholder text — the claim as stated fails. -/
theorem conversation_question_literal_ce :
    create_conversation_with_history "You are a helpful assistant." [] "a" =
      .ok [⟨.System, "You are a helpful assistant."⟩, ⟨.Human, "a"⟩] ∧
    create_conversation_with_history "You are a helpful assistant." [] "b" =
      .ok [⟨.System, "You are a helpful assistant."⟩, ⟨.Human, "b"⟩] ∧
    ([⟨.System, "You are a helpful assistant."⟩, ⟨.Human, "a"⟩] : List Message) ≠
      [⟨.System, "You are a helpful assistant."⟩, ⟨.Human, "b"⟩] ∧
    ("a" : String) ≠ "\x7bquestion\x7d" :=
  ⟨rfl, rfl, by decide, by decide⟩

/-- Claim C10 (amended): create_conversation_with_history renders the final
Human turn from the template `\x7bquestion\x7d` with question bound to
current_question, so a successful output is the rendered system message,
then the history unchanged, then one Human message whose content is
exactly current_question. -/
theorem conversation_question_rendered (sys : String) (hist : List Message)
    (q : String) (out : List Message)
    (h : create_conversation_with_history sys hist q = .ok out) :
    ∃ s, out = ⟨.System, s⟩ :: (hist ++ [⟨.Human, q⟩]) := by
  unfold create_conversation_with_history at h
  simp only [assemble] at h
  have hhist : resolveTurn
      (fun n => if n = "history" then some (Value.msgs hist)
        else if n = "question" then some (Value.str q) else none)
      (.history "history" none) = .ok hist := by
    simp [resolveTurn, applyLimit]
  have hquest : resolveTurn
      (fun n => if n = "history" then some (Value.msgs hist)
        else if n = "question" then some (Value.str q) else none)
      (.text .Human "\x7bquestion\x7d") = .ok [⟨.Human, q⟩] := by
    have hscan : scanAux .norm ("\x7bquestion\x7d").data = .ok [Tok.var "question"] := rfl
    simp [resolveTurn, render, hscan, substTok, toText, mk_data]
  rw [hhist, hquest] at h
  cases hr : resolveTurn
      (fun n => if n = "history" then some (Value.msgs hist)
        else if n = "question" then some (Value.str q) else none)
      (.text .System sys) with
  | error e =>
    rw [hr] at h
    exact Except.noConfusion h
  | ok ms1 =>
    rw [hr] at h
    obtain ⟨s0, hs0, hms1⟩ := resolveTurn_text_shape _ .System sys ms1 hr
    subst hms1
    refine ⟨s0, ?_⟩
    have h2 : ([⟨Role.System, s0⟩] ++ (hist ++ ([⟨Role.Human, q⟩] ++ []))) = out := by
      injection h
    rw [← h2]
    simp

theorem conversation_question_rendered_witness :
    ∃ s, ([⟨.System, "s"⟩, ⟨.Human, "a"⟩] : List Message) =
      ⟨.System, s⟩ :: (([] : List Message) ++ [⟨.Human, "a"⟩]) :=
  conversation_question_rendered "s" [] "a" [⟨.System, "s"⟩, ⟨.Human, "a"⟩] rfl

end LCPrompt
